import Mathlib

/-!
Verification of the Stock-Press table-reshaping pipeline.

The repository's two scripts download a multi-symbol OHLCV table, flatten
the multi-index columns to names of the form Field_Symbol, extract a
latest-row statistics record per requested symbol, compute rolling simple
moving averages over the per-symbol Close column, and export the flat
table as CSV and a PDF summary line per symbol.

This file embeds that pipeline shallowly: calendar dates are triples,
prices and volumes are exact rationals, an absent (NaN) cell is `none`,
the flattened frame is a `FlatTable` of string-named columns, and the
Python exceptions raised by the statistics loop become a typed
`Except` error. Library calls are embedded by their documented
semantics: the pandas rolling mean with its default minimum period equal
to the window, and the by-date outer merge performed by the downloader.
-/

namespace StockPress

/-- A calendar date, no time of day. -/
structure Date where
  y : Nat
  m : Nat
  d : Nat
deriving DecidableEq, Repr

/-- Lexicographic strict order on dates (year, then month, then day). -/
def dateLt (a b : Date) : Bool :=
  decide (a.y < b.y ∨ (a.y = b.y ∧ (a.m < b.m ∨ (a.m = b.m ∧ a.d < b.d))))

theorem dateLt_irrefl (a : Date) : dateLt a a = false := by
  simp [dateLt]

theorem dateLt_total {a b : Date} (h1 : dateLt a b = false)
    (h2 : dateLt b a = false) : a = b := by
  cases a; cases b
  simp only [dateLt, decide_eq_false_iff_not] at h1 h2
  simp only [Date.mk.injEq]
  refine ⟨?_, ?_, ?_⟩ <;> omega

theorem dateLt_trans {a b c : Date} (h1 : dateLt a b = true)
    (h2 : dateLt b c = true) : dateLt a c = true := by
  cases a; cases b; cases c
  simp only [dateLt, decide_eq_true_eq] at h1 h2 ⊢
  omega

/-- One downloaded row for one symbol on one date: the five OHLCV fields,
each possibly absent (NaN in the source frame). -/
structure OHLCV where
  openF : Option ℚ
  highF : Option ℚ
  lowF : Option ℚ
  closeF : Option ℚ
  volumeF : Option ℚ
deriving DecidableEq, Repr

/-- The per-symbol raw series supplied by the data-fetch layer. -/
abbrev RawSeries := List (Date × OHLCV)

/-- The mapping from symbol to its raw series. -/
abbrev RawData := List (String × RawSeries)

/-- Association-list lookup by string key, first match wins, mirroring
Python dictionary / pandas label access. -/
def alookup {α : Type} (k : String) : List (String × α) → Option α
  | [] => none
  | (k', v) :: rest => if k = k' then some v else alookup k rest

/-- Lookup of a date's row inside one symbol's raw series. -/
def findDate (d : Date) : RawSeries → Option OHLCV
  | [] => none
  | (d', r) :: rest => if d = d' then some r else findDate d rest

/-- The five field names of the downloaded multi-index, level 0. -/
def fieldNames : List String := ["Open", "High", "Low", "Close", "Volume"]

/-- Reading one named field out of an OHLCV row. -/
def fieldVal (f : String) (r : OHLCV) : Option ℚ :=
  if f = "Open" then r.openF
  else if f = "High" then r.highF
  else if f = "Low" then r.lowF
  else if f = "Close" then r.closeF
  else if f = "Volume" then r.volumeF
  else none

/-- Python str.strip of one character: drop it from both ends. -/
def stripChar (c : Char) (l : List Char) : List Char :=
  ((l.dropWhile (· = c)).reverse.dropWhile (· = c)).reverse

/-- The source's column flattening of a (field, symbol) pair:
the underscore join of the tuple, then strip of underscores. -/
def flattenName (f s : String) : String :=
  ⟨stripChar '_' (f.data ++ '_' :: s.data)⟩

/-- The flattened wide table: data columns named Field_Symbol, and rows
keyed by date, each row an association list from column name to a
possibly absent rational value. The Date column of the source frame is
the row key. -/
structure FlatTable where
  cols : List String
  rows : List (Date × List (String × Option ℚ))
deriving DecidableEq, Repr

/-- Pandas rolling(window=w).mean() with the default minimum period equal
to the window: at index i the window is the at most w entries ending at
i; the mean of its non-absent observations is produced only when at
least w observations are present, otherwise the output is absent. -/
def rollingMean (w : Nat) (xs : List (Option ℚ)) : List (Option ℚ) :=
  (List.range xs.length).map (fun i =>
    let obs := (((xs.take (i + 1)).drop (i + 1 - w)).filterMap id)
    if w ≤ obs.length then some (obs.sum / (obs.length : ℚ)) else none)

/-- The specification's description of the moving average: at index i the
value is the arithmetic mean over rows i-w+1 .. i divided by w exactly
when i is at least w-1 and every entry of that window is present,
otherwise absent. -/
def smaSpec (w : Nat) (xs : List (Option ℚ)) : List (Option ℚ) :=
  (List.range xs.length).map (fun i =>
    let window := (xs.take (i + 1)).drop (i + 1 - w)
    if w - 1 ≤ i ∧ window.all Option.isSome then
      some ((window.filterMap id).sum / (w : ℚ))
    else none)

theorem filterMap_id_length_eq (l : List (Option ℚ)) :
    (l.filterMap id).length = l.length ↔ l.all Option.isSome = true := by
  induction l with
  | nil => simp
  | cons a l ih =>
    cases a with
    | none =>
      simp only [List.filterMap_cons, id, List.all_cons, Option.isSome_none,
        Bool.false_and, List.length_cons]
      constructor
      · intro h
        have := List.length_filterMap_le id l
        omega
      · intro h
        exact absurd h (by simp)
    | some q =>
      simp only [List.filterMap_cons, id, List.all_cons, Option.isSome_some,
        Bool.true_and, List.length_cons, add_left_inj]
      exact ih

/-- Reading one named column of the flat table as a date-ordered series
of possibly absent values, mirroring selection of df[colname]. -/
def getColumn (t : FlatTable) (c : String) : List (Option ℚ) :=
  t.rows.map (fun r => (alookup c r.2).getD none)

theorem rollingMean_eq_smaSpec (w : Nat) (xs : List (Option ℚ)) :
    rollingMean w xs = smaSpec w xs := by
  unfold rollingMean smaSpec
  apply List.map_congr_left
  intro i hi
  have hi' : i < xs.length := List.mem_range.mp hi
  dsimp only
  set s := (xs.take (i + 1)).drop (i + 1 - w) with hs
  have hslen : s.length = min (i + 1) w := by
    rw [hs, List.length_drop, List.length_take]
    omega
  by_cases hc : w - 1 ≤ i ∧ s.all Option.isSome = true
  · have h1 : (s.filterMap id).length = s.length :=
      (filterMap_id_length_eq s).mpr hc.2
    have h2 : s.length = w := by omega
    rw [if_pos hc, if_pos (by omega : w ≤ (s.filterMap id).length)]
    rw [h1, h2]
  · have hnot : ¬ w ≤ (s.filterMap id).length := by
      intro hle
      have h3 := List.length_filterMap_le id s
      have h4 : (s.filterMap id).length = s.length := by omega
      have h5 : s.all Option.isSome = true := (filterMap_id_length_eq s).mp h4
      exact hc ⟨by omega, h5⟩
    rw [if_neg hc, if_neg hnot]

/-- C1: for every flat table, every symbol whose Close column is present
and every window w in the set used by the source (20 and 50), the
rolling mean computed by the source over the Close column produces at
row i exactly the arithmetic mean of the window of the w rows ending at
i when i is at least w - 1 and every value of that window is present,
and an absent value otherwise; a single absent close in the window makes
the row's average absent, the window is never shrunk and absent values
are never treated as zero. -/
theorem sma_window_semantics (t : FlatTable) (sym : String) (w : Nat)
    (_hcol : ("Close_" ++ sym) ∈ t.cols) (_hw : w = 20 ∨ w = 50) :
    rollingMean w (getColumn t ("Close_" ++ sym)) =
      smaSpec w (getColumn t ("Close_" ++ sym)) :=
  rollingMean_eq_smaSpec w (getColumn t ("Close_" ++ sym))

/-- A concrete two-row table carrying one Close column, used to witness
the hypotheses of the moving-average theorem. -/
def sampleCloseTable : FlatTable :=
  { cols := ["Close_AAPL"]
    rows := [ (⟨2023, 1, 3⟩, [("Close_AAPL", some 100)])
            , (⟨2023, 1, 4⟩, [("Close_AAPL", some 102)]) ] }

/-- Witness for the moving-average theorem at a concrete table. -/
theorem sma_window_semantics_witness :
    (("Close_" ++ "AAPL") ∈ sampleCloseTable.cols ∧ (20 = 20 ∨ 20 = 50)) ∧
      rollingMean 20 (getColumn sampleCloseTable ("Close_" ++ "AAPL")) =
        smaSpec 20 (getColumn sampleCloseTable ("Close_" ++ "AAPL")) :=
  ⟨⟨by decide, Or.inl rfl⟩,
    sma_window_semantics sampleCloseTable "AAPL" 20 (by decide) (Or.inl rfl)⟩

/-- The error taxonomy of the snapshot extraction. The source raises a
positional-indexer exception at the last-row read of an empty frame and
a key exception at a missing column label; these two distinct, locally
recoverable failures are the typed EmptyTableError and
UnknownSymbolError of the pipeline. -/
inductive ReshapeError where
  | emptyTable
  | unknownSymbol
deriving DecidableEq, Repr

/-- The latest-row statistics record built per symbol by the stats loop:
symbol, latest close, day high, day low and volume, each value possibly
absent. -/
structure SymbolSnapshot where
  symbol : String
  latestClose : Option ℚ
  dayHigh : Option ℚ
  dayLow : Option ℚ
  volume : Option ℚ
deriving DecidableEq, Repr

/-- The body of the stats loop for one symbol: read the last row of the
table (failing on an empty table), then read the four per-symbol labels
out of it (failing when a label is missing from the row). -/
def snapshot (t : FlatTable) (sym : String) :
    Except ReshapeError SymbolSnapshot :=
  match t.rows.getLast? with
  | none => .error .emptyTable
  | some last =>
    match alookup ("Close_" ++ sym) last.2, alookup ("High_" ++ sym) last.2,
        alookup ("Low_" ++ sym) last.2, alookup ("Volume_" ++ sym) last.2 with
    | some c, some hi, some lo, some v => .ok ⟨sym, c, hi, lo, v⟩
    | _, _, _, _ => .error .unknownSymbol

/-- The stats loop over the requested symbols in order; the first
failure aborts, otherwise one record per symbol is accumulated. -/
def statistics (t : FlatTable) : List String →
    Except ReshapeError (List SymbolSnapshot)
  | [] => .ok []
  | s :: rest =>
    match snapshot t s, statistics t rest with
    | .ok snap, .ok snaps => .ok (snap :: snaps)
    | .error e, _ => .error e
    | _, .error e => .error e

theorem snapshot_ok_symbol {t : FlatTable} {sym : String}
    {snap : SymbolSnapshot} (h : snapshot t sym = .ok snap) :
    snap.symbol = sym := by
  unfold snapshot at h
  split at h
  · exact absurd h (by simp)
  · split at h
    · cases h
      rfl
    · exact absurd h (by simp)

/-- C2: extracting a snapshot from a table with zero rows fails with the
typed error EmptyTableError, whatever the schema and the requested
symbol, and no snapshot value is produced. -/
theorem snapshot_empty_table (cols : List String) (sym : String) :
    snapshot ⟨cols, []⟩ sym = .error .emptyTable := rfl

/-- C5: whenever the statistics assembly returns a record set, it holds
exactly one snapshot per requested symbol, in the exact order the
symbols were requested: the symbols of the result read back the request
list itself, so the presentation order matches user selection order and
is independent of alphabetical or fetch order. -/
theorem statistics_request_order (t : FlatTable) (symbols : List String)
    (l : List SymbolSnapshot) (h : statistics t symbols = .ok l) :
    l.map SymbolSnapshot.symbol = symbols ∧ l.length = symbols.length := by
  have hmap : l.map SymbolSnapshot.symbol = symbols := by
    induction symbols generalizing l with
    | nil =>
      unfold statistics at h
      cases h
      rfl
    | cons s rest ih =>
      unfold statistics at h
      split at h
      · cases h
        rename_i snap snaps hsnap hrest
        simp only [List.map_cons]
        rw [snapshot_ok_symbol hsnap, ih snaps hrest]
      · exact absurd h (by simp)
      · exact absurd h (by simp)
  exact ⟨hmap, by rw [← hmap, List.length_map]⟩

/-- A one-row table holding the four statistics labels of both MSFT and
AAPL, used to witness the statistics ordering theorem. -/
def sampleStatsTable : FlatTable :=
  { cols := [ "Close_MSFT", "High_MSFT", "Low_MSFT", "Volume_MSFT"
            , "Close_AAPL", "High_AAPL", "Low_AAPL", "Volume_AAPL" ]
    rows := [ (⟨2023, 1, 3⟩,
        [ ("Close_MSFT", some 240), ("High_MSFT", some 245)
        , ("Low_MSFT", some 237), ("Volume_MSFT", some 21000000)
        , ("Close_AAPL", some 125), ("High_AAPL", some 128)
        , ("Low_AAPL", some 124), ("Volume_AAPL", some 112000000) ]) ] }

/-- The record set the statistics assembly produces on the sample table
for the request list MSFT then AAPL. -/
def sampleStatsRecords : List SymbolSnapshot :=
  [ ⟨"MSFT", some 240, some 245, some 237, some 21000000⟩
  , ⟨"AAPL", some 125, some 128, some 124, some 112000000⟩ ]

/-- Witness for the statistics ordering theorem: requesting MSFT then
AAPL, an order that is neither alphabetical nor the column order of the
table, returns the snapshots in exactly that order. -/
theorem statistics_request_order_witness :
    statistics sampleStatsTable ["MSFT", "AAPL"] = .ok sampleStatsRecords ∧
      sampleStatsRecords.map SymbolSnapshot.symbol = ["MSFT", "AAPL"] ∧
        sampleStatsRecords.length = (["MSFT", "AAPL"] : List String).length :=
  ⟨rfl,
    statistics_request_order sampleStatsTable ["MSFT", "AAPL"]
      sampleStatsRecords rfl⟩

/-- The ticker universe offered by the sidebar multiselect. -/
def tickerChoices : List String :=
  ["AAPL", "MSFT", "GOOGL", "AMZN", "TSLA", "META", "NVDA", "NFLX", "IBM",
    "INTC"]

/-- The raw series of one symbol inside the fetched mapping; a symbol
with no data behaves as an empty series. -/
def seriesOf (raw : RawData) (s : String) : RawSeries :=
  (alookup s raw).getD []

/-- Insertion of a date into a strictly ascending duplicate-free list,
keeping it strictly ascending and duplicate-free; folding it over all
fetched dates is the by-date outer merge of the download. -/
def insertDate (x : Date) : List Date → List Date
  | [] => [x]
  | e :: es =>
    if dateLt x e then x :: e :: es
    else if x = e then e :: es
    else e :: insertDate x es

/-- Every date fetched for at least one requested symbol. -/
def allRawDates (raw : RawData) (symbols : List String) : List Date :=
  symbols.flatMap (fun s => (seriesOf raw s).map Prod.fst)

/-- The ascending duplicate-free union of the requested symbols'
trading dates. -/
def unionDates (raw : RawData) (symbols : List String) : List Date :=
  (allRawDates raw symbols).foldr insertDate []

/-- The flattened column names: one Field_Symbol name per (field,
symbol) pair of the cross product. -/
def reshapeCols (symbols : List String) : List String :=
  fieldNames.flatMap (fun f => symbols.map (fun s => flattenName f s))

/-- One merged row: for every (field, symbol) pair, the fetched value of
that field for that symbol on that date, absent when the symbol has no
row for the date or the field itself is absent. -/
def rowCells (raw : RawData) (symbols : List String) (d : Date) :
    List (String × Option ℚ) :=
  fieldNames.flatMap (fun f => symbols.map (fun s =>
    (flattenName f s, (findDate d (seriesOf raw s)).bind (fieldVal f))))

/-- The downloaded, flattened, date-indexed table: by-date outer merge
of the requested symbols' series, flattened column names, dates kept as
the leading Date column of each row. -/
def reshape (raw : RawData) (symbols : List String) : FlatTable :=
  { cols := reshapeCols symbols
    rows := (unionDates raw symbols).map
      (fun d => (d, rowCells raw symbols d)) }

/-- The header of the exported table after the index reset: the Date
column first, then the data columns. -/
def headerNames (t : FlatTable) : List String := "Date" :: t.cols

theorem mem_insertDate {a x : Date} {l : List Date} :
    a ∈ insertDate x l ↔ a = x ∨ a ∈ l := by
  induction l with
  | nil => simp [insertDate]
  | cons e es ih =>
    unfold insertDate
    split
    · simp [List.mem_cons]
    · split
      · rename_i hne heq
        subst heq
        simp only [List.mem_cons]
        constructor
        · intro h
          exact Or.inr h
        · rintro (rfl | h)
          · exact Or.inl rfl
          · exact h
      · simp only [List.mem_cons, ih]
        tauto

theorem insertDate_sorted {x : Date} {l : List Date}
    (h : List.Chain' (fun a b => dateLt a b = true) l) :
    List.Chain' (fun a b => dateLt a b = true) (insertDate x l) := by
  induction l with
  | nil => simp [insertDate]
  | cons e es ih =>
    unfold insertDate
    split
    · rename_i hlt
      exact List.chain'_cons.mpr ⟨hlt, h⟩
    · split
      · exact h
      · rename_i hnlt hne
        have hes : List.Chain' (fun a b => dateLt a b = true) es :=
          h.tail
        have hex : dateLt e x = true := by
          cases hxe : dateLt e x
          · have hxef : dateLt x e = false := by
              cases hv : dateLt x e
              · rfl
              · exact absurd hv hnlt
            exact absurd (dateLt_total hxef hxe) hne
          · rfl
        refine List.chain'_cons'.mpr ⟨?_, ih hes⟩
        intro b hb
        cases es with
        | nil =>
          simp [insertDate] at hb
          subst hb
          exact hex
        | cons e2 es2 =>
          have hee2 : dateLt e e2 = true := (List.chain'_cons.mp h).1
          unfold insertDate at hb
          split at hb
          · simp at hb
            subst hb
            exact hex
          · split at hb
            · simp at hb
              subst hb
              exact hee2
            · simp at hb
              subst hb
              exact hee2

theorem unionDates_sorted (raw : RawData) (symbols : List String) :
    List.Chain' (fun a b => dateLt a b = true)
      (unionDates raw symbols) := by
  unfold unionDates
  induction allRawDates raw symbols with
  | nil => simp
  | cons d ds ih => exact insertDate_sorted ih

theorem mem_unionDates {raw : RawData} {symbols : List String} {d : Date} :
    d ∈ unionDates raw symbols ↔
      ∃ s ∈ symbols, d ∈ (seriesOf raw s).map Prod.fst := by
  have hfold : ∀ ds : List Date, d ∈ ds.foldr insertDate [] ↔ d ∈ ds := by
    intro ds
    induction ds with
    | nil => simp
    | cons e es ih => simp [mem_insertDate, ih]
  unfold unionDates
  rw [hfold]
  simp [allRawDates, List.mem_flatMap]

theorem flattenName_eq_append :
    ∀ f ∈ fieldNames, ∀ s ∈ tickerChoices,
      flattenName f s = f ++ "_" ++ s := by decide

theorem flattenName_inj :
    ∀ f1 ∈ fieldNames, ∀ s1 ∈ tickerChoices,
      ∀ f2 ∈ fieldNames, ∀ s2 ∈ tickerChoices,
        flattenName f1 s1 = flattenName f2 s2 → f1 = f2 ∧ s1 = s2 := by
  decide

theorem rowCells_keys (raw : RawData) (symbols : List String) (d : Date) :
    (rowCells raw symbols d).map Prod.fst = reshapeCols symbols := by
  unfold rowCells reshapeCols
  rw [List.map_flatMap]
  exact congrArg (List.flatMap fieldNames)
    (funext fun f => by rw [List.map_map]; rfl)

/-- C6: for a non-empty request drawn from the sidebar's ticker
universe, the reshaped table's data columns are exactly the cross
product of the requested symbols with the five OHLCV fields, each named
Field underscore Symbol, with the Date column in front of them in the
exported header; the naming is collision-free: two distinct (field,
symbol) pairs never flatten to the same column name. -/
theorem reshaped_column_set (raw : RawData) (symbols : List String)
    (_hne : symbols ≠ [])
    (hsub : ∀ s ∈ symbols, s ∈ tickerChoices) :
    headerNames (reshape raw symbols) = "Date" :: reshapeCols symbols ∧
    (∀ c, c ∈ (reshape raw symbols).cols ↔
      ∃ f ∈ fieldNames, ∃ s ∈ symbols, c = f ++ "_" ++ s) ∧
    (∀ f1 ∈ fieldNames, ∀ s1 ∈ symbols,
      ∀ f2 ∈ fieldNames, ∀ s2 ∈ symbols,
        flattenName f1 s1 = flattenName f2 s2 → f1 = f2 ∧ s1 = s2) := by
  refine ⟨rfl, ?_, ?_⟩
  · intro c
    simp only [reshape, reshapeCols, List.mem_flatMap, List.mem_map]
    constructor
    · rintro ⟨f, hf, s, hs, rfl⟩
      exact ⟨f, hf, s, hs, flattenName_eq_append f hf s (hsub s hs)⟩
    · rintro ⟨f, hf, s, hs, rfl⟩
      exact ⟨f, hf, s, hs, flattenName_eq_append f hf s (hsub s hs)⟩
  · intro f1 hf1 s1 hs1 f2 hf2 s2 hs2 heq
    exact flattenName_inj f1 hf1 s1 (hsub s1 hs1) f2 hf2 s2 (hsub s2 hs2) heq

/-- C7: the reshaped table's dates are strictly increasing, hence
unique, with one row per date of the union of the requested symbols'
trading dates: a date appears as a row exactly when at least one
requested symbol has data for it; every row carries the same column
schema; and a symbol lacking data for a row's date contributes an
absent value in each of its columns of that row. -/
theorem reshaped_row_invariants (raw : RawData) (symbols : List String) :
    List.Chain' (fun a b => dateLt a b = true)
      ((reshape raw symbols).rows.map Prod.fst) ∧
    (∀ d, d ∈ (reshape raw symbols).rows.map Prod.fst ↔
      ∃ s ∈ symbols, d ∈ (seriesOf raw s).map Prod.fst) ∧
    (∀ r ∈ (reshape raw symbols).rows,
      r.2.map Prod.fst = (reshape raw symbols).cols) ∧
    (∀ r ∈ (reshape raw symbols).rows, ∀ f ∈ fieldNames, ∀ s ∈ symbols,
      findDate r.1 (seriesOf raw s) = none →
        (flattenName f s, (none : Option ℚ)) ∈ r.2) := by
  have hdates : (reshape raw symbols).rows.map Prod.fst =
      unionDates raw symbols := by
    show List.map Prod.fst ((unionDates raw symbols).map
      (fun d => (d, rowCells raw symbols d))) = unionDates raw symbols
    rw [List.map_map]
    exact List.map_id' (unionDates raw symbols)
  refine ⟨?_, ?_, ?_, ?_⟩
  · rw [hdates]
    exact unionDates_sorted raw symbols
  · intro d
    rw [hdates]
    exact mem_unionDates
  · intro r hr
    simp only [reshape, List.mem_map] at hr
    obtain ⟨d, hd, rfl⟩ := hr
    exact rowCells_keys raw symbols d
  · intro r hr f hf s hs hnone
    simp only [reshape, List.mem_map] at hr
    obtain ⟨d, hd, rfl⟩ := hr
    simp only [rowCells, List.mem_flatMap, List.mem_map]
    refine ⟨f, hf, s, hs, ?_⟩
    rw [hnone]
    rfl

/-- A one-symbol fetched mapping with a single trading date, used as
concrete input to the reshaping theorems. -/
def sampleRaw : RawData :=
  [("AAPL",
    [(⟨2023, 1, 3⟩,
      ⟨some 130, some 131, some 124, some 125, some 112000000⟩)])]

/-- Witness for the column-set theorem at a concrete one-symbol
request. -/
theorem reshaped_column_set_witness :
    ((["AAPL"] : List String) ≠ [] ∧
      (∀ s ∈ (["AAPL"] : List String), s ∈ tickerChoices)) ∧
    (headerNames (reshape sampleRaw ["AAPL"]) =
        "Date" :: reshapeCols ["AAPL"] ∧
      (∀ c, c ∈ (reshape sampleRaw ["AAPL"]).cols ↔
        ∃ f ∈ fieldNames, ∃ s ∈ (["AAPL"] : List String),
          c = f ++ "_" ++ s) ∧
      (∀ f1 ∈ fieldNames, ∀ s1 ∈ (["AAPL"] : List String),
        ∀ f2 ∈ fieldNames, ∀ s2 ∈ (["AAPL"] : List String),
          flattenName f1 s1 = flattenName f2 s2 → f1 = f2 ∧ s1 = s2)) :=
  ⟨⟨by decide, by decide⟩,
    reshaped_column_set sampleRaw ["AAPL"] (by decide) (by decide)⟩

theorem alookup_isSome_iff {α : Type} (k : String)
    (l : List (String × α)) :
    (alookup k l).isSome = true ↔ k ∈ l.map Prod.fst := by
  induction l with
  | nil => simp [alookup]
  | cons p rest ih =>
    obtain ⟨k', v⟩ := p
    simp only [alookup, List.map_cons, List.mem_cons]
    split
    · rename_i heq
      simp [heq]
    · rename_i hne
      simp only [ih]
      constructor
      · exact Or.inr
      · rintro (rfl | h)
        · exact absurd rfl hne
        · exact h

theorem alookup_eq_none {α : Type} {k : String} {l : List (String × α)}
    (h : k ∉ l.map Prod.fst) : alookup k l = none := by
  cases ha : alookup k l with
  | none => rfl
  | some v =>
    exact absurd ((alookup_isSome_iff k l).mp (by simp [ha])) h

theorem snapshot_all_present {t : FlatTable} {sym : String}
    {last : Date × List (String × Option ℚ)}
    (hlast : t.rows.getLast? = some last)
    (hc : ("Close_" ++ sym) ∈ last.2.map Prod.fst)
    (hh : ("High_" ++ sym) ∈ last.2.map Prod.fst)
    (hl : ("Low_" ++ sym) ∈ last.2.map Prod.fst)
    (hv : ("Volume_" ++ sym) ∈ last.2.map Prod.fst) :
    snapshot t sym = .ok
      ⟨sym, (alookup ("Close_" ++ sym) last.2).getD none,
        (alookup ("High_" ++ sym) last.2).getD none,
        (alookup ("Low_" ++ sym) last.2).getD none,
        (alookup ("Volume_" ++ sym) last.2).getD none⟩ := by
  obtain ⟨c, hc'⟩ :=
    Option.isSome_iff_exists.mp ((alookup_isSome_iff _ _).mpr hc)
  obtain ⟨hi, hh'⟩ :=
    Option.isSome_iff_exists.mp ((alookup_isSome_iff _ _).mpr hh)
  obtain ⟨lo, hl'⟩ :=
    Option.isSome_iff_exists.mp ((alookup_isSome_iff _ _).mpr hl)
  obtain ⟨v, hv'⟩ :=
    Option.isSome_iff_exists.mp ((alookup_isSome_iff _ _).mpr hv)
  simp only [snapshot, hlast, hc', hh', hl', hv', Option.getD_some]

theorem snapshot_close_missing {t : FlatTable} {sym : String}
    {last : Date × List (String × Option ℚ)}
    (hlast : t.rows.getLast? = some last)
    (hc : ("Close_" ++ sym) ∉ last.2.map Prod.fst) :
    snapshot t sym = .error .unknownSymbol := by
  simp only [snapshot, hlast, alookup_eq_none hc]

theorem close_label (sym : String) :
    "Close_" ++ sym = "Close" ++ "_" ++ sym := by
  have h : ("Close" ++ "_" : String) = "Close_" := by decide
  rw [← h]

theorem high_label (sym : String) :
    "High_" ++ sym = "High" ++ "_" ++ sym := by
  have h : ("High" ++ "_" : String) = "High_" := by decide
  rw [← h]

theorem low_label (sym : String) :
    "Low_" ++ sym = "Low" ++ "_" ++ sym := by
  have h : ("Low" ++ "_" : String) = "Low_" := by decide
  rw [← h]

theorem volume_label (sym : String) :
    "Volume_" ++ sym = "Volume" ++ "_" ++ sym := by
  have h : ("Volume" ++ "_" : String) = "Volume_" := by decide
  rw [← h]

theorem label_mem_reshapeCols {g sym : String} (hg : g ∈ fieldNames)
    (hsym : sym ∈ tickerChoices) {symbols : List String}
    (hsub : ∀ s ∈ symbols, s ∈ tickerChoices) :
    (g ++ "_" ++ sym) ∈ reshapeCols symbols ↔ sym ∈ symbols := by
  constructor
  · intro h
    simp only [reshapeCols, List.mem_flatMap, List.mem_map] at h
    obtain ⟨f, hf, s, hs, heq⟩ := h
    have h2 : flattenName g sym = g ++ "_" ++ sym :=
      flattenName_eq_append g hg sym hsym
    obtain ⟨hfg, hssym⟩ :=
      flattenName_inj f hf s (hsub s hs) g hg sym hsym (heq.trans h2.symm)
    exact hssym ▸ hs
  · intro h
    simp only [reshapeCols, List.mem_flatMap, List.mem_map]
    exact ⟨g, hg, sym, h, flattenName_eq_append g hg sym hsym⟩

/-- C3: on a non-empty reshaped table, the snapshot of a symbol fails
with the typed error UnknownSymbolError exactly when the symbol's four
statistics columns are absent from the schema; when the columns exist,
the snapshot succeeds with each field read from the last row, an absent
stored value giving an absent snapshot field and never an error. -/
theorem snapshot_unknown_symbol_iff (raw : RawData)
    (symbols : List String) (sym : String)
    (hsub : ∀ s ∈ symbols, s ∈ tickerChoices)
    (hsym : sym ∈ tickerChoices)
    (last : Date × List (String × Option ℚ))
    (hlast : (reshape raw symbols).rows.getLast? = some last) :
    (snapshot (reshape raw symbols) sym = .error .unknownSymbol ↔
      (("Close_" ++ sym) ∉ (reshape raw symbols).cols ∧
        ("High_" ++ sym) ∉ (reshape raw symbols).cols ∧
        ("Low_" ++ sym) ∉ (reshape raw symbols).cols ∧
        ("Volume_" ++ sym) ∉ (reshape raw symbols).cols)) ∧
    (("Close_" ++ sym) ∈ (reshape raw symbols).cols →
      snapshot (reshape raw symbols) sym = .ok
        ⟨sym, (alookup ("Close_" ++ sym) last.2).getD none,
          (alookup ("High_" ++ sym) last.2).getD none,
          (alookup ("Low_" ++ sym) last.2).getD none,
          (alookup ("Volume_" ++ sym) last.2).getD none⟩) := by
  have hmem : last ∈ (reshape raw symbols).rows :=
    List.mem_of_getLast?_eq_some hlast
  have hkeys : last.2.map Prod.fst = reshapeCols symbols := by
    simp only [reshape, List.mem_map] at hmem
    obtain ⟨d, hd, heq⟩ := hmem
    rw [← heq]
    exact rowCells_keys raw symbols d
  have hcols : (reshape raw symbols).cols = reshapeCols symbols := rfl
  have hC : ("Close_" ++ sym) ∈ reshapeCols symbols ↔ sym ∈ symbols := by
    rw [close_label]
    exact label_mem_reshapeCols (by decide) hsym hsub
  have hH : ("High_" ++ sym) ∈ reshapeCols symbols ↔ sym ∈ symbols := by
    rw [high_label]
    exact label_mem_reshapeCols (by decide) hsym hsub
  have hL : ("Low_" ++ sym) ∈ reshapeCols symbols ↔ sym ∈ symbols := by
    rw [low_label]
    exact label_mem_reshapeCols (by decide) hsym hsub
  have hV : ("Volume_" ++ sym) ∈ reshapeCols symbols ↔ sym ∈ symbols := by
    rw [volume_label]
    exact label_mem_reshapeCols (by decide) hsym hsub
  by_cases hin : sym ∈ symbols
  · have hok := snapshot_all_present hlast
      (by rw [hkeys]; exact hC.mpr hin) (by rw [hkeys]; exact hH.mpr hin)
      (by rw [hkeys]; exact hL.mpr hin) (by rw [hkeys]; exact hV.mpr hin)
    constructor
    · rw [hok]
      constructor
      · intro h
        exact absurd h (by simp)
      · intro h
        exact absurd (hC.mpr hin) (by rw [← hcols]; exact h.1)
    · intro _
      exact hok
  · have herr := snapshot_close_missing hlast
      (by rw [hkeys]; exact fun h => hin (hC.mp h))
    constructor
    · rw [herr]
      constructor
      · intro _
        refine ⟨?_, ?_, ?_, ?_⟩ <;> rw [hcols]
        · exact fun h => hin (hC.mp h)
        · exact fun h => hin (hH.mp h)
        · exact fun h => hin (hL.mp h)
        · exact fun h => hin (hV.mp h)
      · intro _
        rfl
    · intro hcc
      rw [hcols] at hcc
      exact absurd (hC.mp hcc) hin

/-- The single merged row the sample fetched mapping produces. -/
def sampleLastRow : Date × List (String × Option ℚ) :=
  (⟨2023, 1, 3⟩,
    [ ("Open_AAPL", some 130), ("High_AAPL", some 131)
    , ("Low_AAPL", some 124), ("Close_AAPL", some 125)
    , ("Volume_AAPL", some 112000000) ])

/-- Witness for the unknown-symbol theorem: a table reshaped for AAPL
only, asked to snapshot MSFT. -/
theorem snapshot_unknown_symbol_iff_witness :
    ((∀ s ∈ (["AAPL"] : List String), s ∈ tickerChoices) ∧
      "MSFT" ∈ tickerChoices ∧
      (reshape sampleRaw ["AAPL"]).rows.getLast? = some sampleLastRow) ∧
    ((snapshot (reshape sampleRaw ["AAPL"]) "MSFT" =
        .error .unknownSymbol ↔
      (("Close_" ++ "MSFT") ∉ (reshape sampleRaw ["AAPL"]).cols ∧
        ("High_" ++ "MSFT") ∉ (reshape sampleRaw ["AAPL"]).cols ∧
        ("Low_" ++ "MSFT") ∉ (reshape sampleRaw ["AAPL"]).cols ∧
        ("Volume_" ++ "MSFT") ∉ (reshape sampleRaw ["AAPL"]).cols)) ∧
    (("Close_" ++ "MSFT") ∈ (reshape sampleRaw ["AAPL"]).cols →
      snapshot (reshape sampleRaw ["AAPL"]) "MSFT" = .ok
        ⟨"MSFT",
          (alookup ("Close_" ++ "MSFT") sampleLastRow.2).getD none,
          (alookup ("High_" ++ "MSFT") sampleLastRow.2).getD none,
          (alookup ("Low_" ++ "MSFT") sampleLastRow.2).getD none,
          (alookup ("Volume_" ++ "MSFT") sampleLastRow.2).getD none⟩)) :=
  ⟨⟨by decide, by decide, by decide⟩,
    snapshot_unknown_symbol_iff sampleRaw ["AAPL"] "MSFT" (by decide)
      (by decide) sampleLastRow (by decide)⟩

/-- The character of one decimal digit. -/
def digitChar (d : Nat) : Char :=
  if d = 0 then '0' else if d = 1 then '1' else if d = 2 then '2'
  else if d = 3 then '3' else if d = 4 then '4' else if d = 5 then '5'
  else if d = 6 then '6' else if d = 7 then '7' else if d = 8 then '8'
  else '9'

/-- The numeric value of one decimal digit character. -/
def digitVal (c : Char) : Nat := c.toNat - 48

/-- Digit extraction worker, structurally recursive on a fuel bound so
that it reduces definitionally. -/
def toDigitsRevFuel : Nat → Nat → List Nat
  | 0, _ => []
  | _ + 1, 0 => []
  | fuel + 1, n + 1 => ((n + 1) % 10) :: toDigitsRevFuel fuel ((n + 1) / 10)

/-- The decimal digits of a natural number, least significant first. -/
def toDigitsRev (n : Nat) : List Nat := toDigitsRevFuel n n

theorem toDigitsRevFuel_adequate :
    ∀ f1 f2 n, n ≤ f1 → n ≤ f2 →
      toDigitsRevFuel f1 n = toDigitsRevFuel f2 n := by
  intro f1
  induction f1 with
  | zero =>
    intro f2 n h1 _
    have hn : n = 0 := Nat.le_zero.mp h1
    subst hn
    cases f2 <;> rfl
  | succ f1' ih =>
    intro f2 n h1 h2
    cases n with
    | zero => cases f2 <;> rfl
    | succ m =>
      cases f2 with
      | zero => exact absurd h2 (by omega)
      | succ f2' =>
        show ((m + 1) % 10) :: toDigitsRevFuel f1' ((m + 1) / 10) =
          ((m + 1) % 10) :: toDigitsRevFuel f2' ((m + 1) / 10)
        congr 1
        have hlt := Nat.div_lt_self (Nat.succ_pos m) (by decide : 1 < 10)
        exact ih f2' _ (by omega) (by omega)

theorem toDigitsRev_succ (n : Nat) :
    toDigitsRev (n + 1) = ((n + 1) % 10) :: toDigitsRev ((n + 1) / 10) := by
  show ((n + 1) % 10) :: toDigitsRevFuel n ((n + 1) / 10) =
    ((n + 1) % 10) :: toDigitsRevFuel ((n + 1) / 10) ((n + 1) / 10)
  congr 1
  have hlt := Nat.div_lt_self (Nat.succ_pos n) (by decide : 1 < 10)
  exact toDigitsRevFuel_adequate n ((n + 1) / 10) ((n + 1) / 10)
    (by omega) (le_refl _)

/-- Decimal rendering of a natural number. -/
def natStr (n : Nat) : List Char :=
  if n = 0 then ['0'] else ((toDigitsRev n).map digitChar).reverse

/-- Zero left-padding to a fixed width, as in the date rendering. -/
def padNat (k n : Nat) : List Char :=
  List.replicate (k - (natStr n).length) '0' ++ natStr n

/-- Parsing of an all-digit run back to a natural number. -/
def parseNat (l : List Char) : Option Nat :=
  if l ≠ [] ∧ l.all Char.isDigit then
    some (l.foldl (fun a c => 10 * a + digitVal c) 0)
  else none

theorem digitVal_digitChar {d : Nat} (h : d < 10) :
    digitVal (digitChar d) = d := by
  interval_cases d <;> decide

theorem digitChar_isDigit (d : Nat) : (digitChar d).isDigit = true := by
  unfold digitChar
  split_ifs <;> decide

theorem isDigit_ne {c : Char} (h : c.isDigit = true) :
    c ≠ ',' ∧ c ≠ '\n' ∧ c ≠ '-' ∧ c ≠ '/' := by
  refine ⟨?_, ?_, ?_, ?_⟩ <;> (rintro rfl; exact absurd h (by decide))

theorem foldl_digits (n : Nat) :
    ∀ a, (((toDigitsRev n).map digitChar).reverse).foldl
        (fun a c => 10 * a + digitVal c) a =
      a * 10 ^ (toDigitsRev n).length + n := by
  induction n using Nat.strong_induction_on with
  | _ n ih =>
    cases n with
    | zero =>
      intro a
      simp [toDigitsRev, toDigitsRevFuel]
    | succ m =>
      intro a
      rw [toDigitsRev_succ, List.map_cons, List.reverse_cons,
        List.foldl_append,
        ih ((m + 1) / 10) (Nat.div_lt_self (Nat.succ_pos m) (by decide))]
      simp only [List.foldl_cons, List.foldl_nil, List.length_cons]
      rw [digitVal_digitChar (Nat.mod_lt _ (by decide))]
      have hdm := Nat.div_add_mod (m + 1) 10
      calc 10 * (a * 10 ^ (toDigitsRev ((m + 1) / 10)).length +
              (m + 1) / 10) + (m + 1) % 10
          = a * (10 ^ (toDigitsRev ((m + 1) / 10)).length * 10) +
              (10 * ((m + 1) / 10) + (m + 1) % 10) := by ring
        _ = a * 10 ^ ((toDigitsRev ((m + 1) / 10)).length + 1) + (m + 1) := by
            rw [hdm, pow_succ]

theorem valNat_natStr (n : Nat) :
    (natStr n).foldl (fun a c => 10 * a + digitVal c) 0 = n := by
  unfold natStr
  split
  · rename_i h
    subst h
    decide
  · simpa using foldl_digits n 0

theorem foldl_replicate_zero (k : Nat) :
    (List.replicate k '0').foldl (fun a c => 10 * a + digitVal c) 0 = 0 := by
  induction k with
  | zero => rfl
  | succ j ih => simpa [List.replicate_succ] using ih

theorem natStr_ne_nil (n : Nat) : natStr n ≠ [] := by
  unfold natStr
  split
  · simp
  · rename_i h
    cases n with
    | zero => exact absurd rfl h
    | succ m =>
      rw [toDigitsRev_succ]
      simp

theorem natStr_all_digit (n : Nat) :
    ∀ c ∈ natStr n, c.isDigit = true := by
  intro c hc
  unfold natStr at hc
  split at hc
  · simp at hc
    subst hc
    decide
  · rw [List.mem_reverse] at hc
    obtain ⟨d, _, rfl⟩ := List.mem_map.mp hc
    exact digitChar_isDigit d

theorem padNat_all_digit (k n : Nat) :
    ∀ c ∈ padNat k n, c.isDigit = true := by
  intro c hc
  rcases List.mem_append.mp hc with h | h
  · rw [List.eq_of_mem_replicate h]
    decide
  · exact natStr_all_digit n c h

theorem parseNat_padNat (k n : Nat) : parseNat (padNat k n) = some n := by
  have h1 : padNat k n ≠ [] := fun hnil =>
    natStr_ne_nil n (List.append_eq_nil.mp hnil).2
  have h2 : (padNat k n).all Char.isDigit = true :=
    List.all_eq_true.mpr (padNat_all_digit k n)
  unfold parseNat
  rw [if_pos ⟨h1, h2⟩, padNat, List.foldl_append, foldl_replicate_zero,
    valNat_natStr]

/-- Decimal rendering of an integer, Python str(int) style. -/
def intChars (i : Int) : List Char :=
  if i < 0 then '-' :: natStr i.natAbs else natStr i.natAbs

/-- String form of the integer rendering. -/
def intStr (i : Int) : String := ⟨intChars i⟩

/-- Python int() on a numeric value: truncation toward zero. -/
def truncInt (q : ℚ) : Int := q.num.tdiv (q.den : Int)

/-- The number of cents nearest to a price: the floor of the value
scaled by one hundred plus one half, written over a common denominator
so that it evaluates definitionally; this rounds to the nearest cent,
halves up (the source's float formatting differs only on exact
half-cent ties). -/
def centsOf (q : ℚ) : Int :=
  (200 * q.num + (q.den : Int)).ediv (2 * (q.den : Int))

/-- The two-decimal fixed-point rendering used by the money fields. -/
def fmt2 (q : ℚ) : String :=
  (if centsOf q < 0 then "-" else "") ++
    (⟨natStr ((centsOf q).natAbs / 100)⟩ : String) ++ "." ++
    (⟨padNat 2 ((centsOf q).natAbs % 100)⟩ : String)

/-- Insertion of a comma after every third digit of a reversed digit
run, the recursion behind thousands grouping. -/
def group3Rev : List Char → List Char
  | a :: b :: c :: rest =>
    if rest.isEmpty then [a, b, c] else a :: b :: c :: ',' :: group3Rev rest
  | l => l

/-- Thousands grouping of a digit run. -/
def groupDigits (l : List Char) : List Char := (group3Rev l.reverse).reverse

/-- Python format with a comma specifier on an integer: sign, then the
thousands-grouped digits. -/
def intStrGrouped (i : Int) : String :=
  (if i < 0 then "-" else "") ++ (⟨groupDigits (natStr i.natAbs)⟩ : String)

/-- The per-row summary line built by the source's PDF stats renderer:
each money field is a dollar sign and two decimals when present and the
text N slash A when absent; the volume is the plain integer rendering
of the truncated value when present and the same absence text
otherwise. -/
def addStatsLine (s : SymbolSnapshot) : String :=
  let close := match s.latestClose with
    | some q => "$" ++ fmt2 q
    | none => "N/A"
  let high := match s.dayHigh with
    | some q => "$" ++ fmt2 q
    | none => "N/A"
  let low := match s.dayLow with
    | some q => "$" ++ fmt2 q
    | none => "N/A"
  let vol := match s.volume with
    | some q => intStr (truncInt q)
    | none => "N/A"
  s.symbol ++ " - Close: " ++ close ++ ", High: " ++ high ++ ", Low: " ++
    low ++ ", Volume: " ++ vol

/-- The specification's summary-line template with its five rendered
fields substituted in. -/
def summaryTemplate (symbol close high low vol : String) : String :=
  symbol ++ " - Close: " ++ close ++ ", High: " ++ high ++ ", Low: " ++
    low ++ ", Volume: " ++ vol

/-- A money field per the specification: dollar sign and two decimals,
or the absence text. -/
def moneyField : Option ℚ → String
  | some q => "$" ++ fmt2 q
  | none => "N/A"

/-- The volume field as the specification words it: a thousands-grouped
integer when present. -/
def volumeFieldClaim : Option ℚ → String
  | some q => intStrGrouped (truncInt q)
  | none => "N/A"

/-- The volume field as the source renders it: a plain, ungrouped
integer when present. -/
def volumeFieldPlain : Option ℚ → String
  | some q => intStr (truncInt q)
  | none => "N/A"

/-- The summary line exactly as the specification describes it,
thousands-grouped volume included. -/
def summaryLineClaim (s : SymbolSnapshot) : String :=
  summaryTemplate s.symbol (moneyField s.latestClose)
    (moneyField s.dayHigh) (moneyField s.dayLow) (volumeFieldClaim s.volume)

/-- The summary line with the volume left ungrouped, which is what the
source builds. -/
def summaryLineAmended (s : SymbolSnapshot) : String :=
  summaryTemplate s.symbol (moneyField s.latestClose)
    (moneyField s.dayHigh) (moneyField s.dayLow) (volumeFieldPlain s.volume)

/-- A snapshot with a seven-digit volume, on which grouping matters. -/
def groupingSnap : SymbolSnapshot :=
  ⟨"AAPL", some 125, some 131, some 124, some 1234567⟩

/-- C4 counterexample: on a snapshot with volume 1234567 the source's
summary line renders the volume without separators, differing from the
claim's thousands-grouped rendering. -/
theorem summary_line_not_grouped :
    addStatsLine groupingSnap ≠ summaryLineClaim groupingSnap := by decide

/-- C4 (amended): for every snapshot, absent fields included, the
source's summary line is exactly the claimed template with N slash A
substituted for absent fields, except that a present volume renders as
a plain ungrouped integer rather than a thousands-grouped one. -/
theorem summary_line_format (s : SymbolSnapshot) :
    addStatsLine s = summaryLineAmended s := by
  obtain ⟨sym, c, h, l, v⟩ := s
  cases c <;> cases h <;> cases l <;> cases v <;> rfl

/-- Joining of character runs with a separator, as the CSV writer does
for fields within a line and lines within the file. -/
def joinSep (sep : Char) : List (List Char) → List Char
  | [] => []
  | f :: fs =>
    match fs with
    | [] => f
    | _ :: _ => f ++ sep :: joinSep sep fs

/-- Splitting of a character run at every separator occurrence. -/
def splitSep (sep : Char) : List Char → List (List Char)
  | [] => [[]]
  | c :: cs =>
    if c = sep then [] :: splitSep sep cs
    else
      match splitSep sep cs with
      | [] => [[c]]
      | f :: fs => (c :: f) :: fs

theorem splitSep_no_sep {sep : Char} {f : List Char} (h : sep ∉ f) :
    splitSep sep f = [f] := by
  induction f with
  | nil => rfl
  | cons c cs ih =>
    have hc : ¬ c = sep := by
      rintro rfl
      exact h (List.mem_cons_self c cs)
    have hcs : sep ∉ cs := fun hh => h (List.mem_cons_of_mem c hh)
    unfold splitSep
    rw [if_neg hc, ih hcs]

theorem splitSep_append {sep : Char} {f r : List Char} (h : sep ∉ f) :
    splitSep sep (f ++ sep :: r) = f :: splitSep sep r := by
  induction f with
  | nil =>
    simp only [List.nil_append]
    rw [splitSep, if_pos rfl]
  | cons c cs ih =>
    have hc : ¬ c = sep := by
      rintro rfl
      exact h (List.mem_cons_self c cs)
    have hcs : sep ∉ cs := fun hh => h (List.mem_cons_of_mem c hh)
    simp only [List.cons_append]
    rw [splitSep, if_neg hc, ih hcs]

theorem splitSep_joinSep {sep : Char} :
    ∀ fs : List (List Char), fs ≠ [] → (∀ f ∈ fs, sep ∉ f) →
      splitSep sep (joinSep sep fs) = fs
  | [], hne, _ => absurd rfl hne
  | [f], _, h => by
    show splitSep sep f = [f]
    exact splitSep_no_sep (h f (List.mem_cons_self f []))
  | f :: g :: fs, _, h => by
    show splitSep sep (f ++ sep :: joinSep sep (g :: fs)) = f :: g :: fs
    rw [splitSep_append (h f (List.mem_cons_self f (g :: fs)))]
    rw [splitSep_joinSep (g :: fs) (by simp)
      (fun x hx => h x (List.mem_cons_of_mem f hx))]

theorem mem_joinSep {sep c : Char} :
    ∀ {fs : List (List Char)}, c ∈ joinSep sep fs →
      c = sep ∨ ∃ f ∈ fs, c ∈ f
  | [], h => by simp [joinSep] at h
  | [f], h => by
    right
    exact ⟨f, List.mem_cons_self f [], by simpa [joinSep] using h⟩
  | f :: g :: fs, h => by
    have h' : c ∈ f ++ sep :: joinSep sep (g :: fs) := h
    rcases List.mem_append.mp h' with hf | hs
    · right
      exact ⟨f, List.mem_cons_self f (g :: fs), hf⟩
    · rcases List.mem_cons.mp hs with rfl | hj
      · left
        rfl
      · rcases mem_joinSep hj with hsep | ⟨f', hf', hcmem⟩
        · left
          exact hsep
        · right
          exact ⟨f', List.mem_cons_of_mem f hf', hcmem⟩

/-- The date of a row rendered as a four-digit year, two-digit month
and two-digit day joined with dashes, the calendar format of the CSV
export. -/
def dateChars (dt : Date) : List Char :=
  padNat 4 dt.y ++ '-' :: (padNat 2 dt.m ++ '-' :: padNat 2 dt.d)

/-- An exact rendering of a present rational cell: the integer part is
the signed numerator and, away from whole numbers, the denominator
follows a slash. Any non-empty separator-free rendering serves the
export; presence is what the round trip preserves. -/
def ratChars (q : ℚ) : List Char :=
  (if q.num < 0 then '-' :: natStr q.num.natAbs else natStr q.num.natAbs) ++
    (if q.den = 1 then [] else '/' :: natStr q.den)

/-- A CSV cell: absent values render as the empty field. -/
def cellChars : Option ℚ → List Char
  | none => []
  | some q => ratChars q

/-- One exported CSV data line: the date field, then one cell per data
column, comma separated. -/
def csvRowChars (cols : List String)
    (r : Date × List (String × Option ℚ)) : List Char :=
  joinSep ','
    (dateChars r.1 :: cols.map (fun c => cellChars ((alookup c r.2).getD none)))

/-- The exported CSV header line: the column names of the table, Date
first, comma separated. -/
def csvHeaderChars (t : FlatTable) : List Char :=
  joinSep ',' ((headerNames t).map String.data)

/-- The CSV text of a flat table: header line then one line per row. -/
def exportCSV (t : FlatTable) : String :=
  ⟨joinSep '\n' (csvHeaderChars t :: t.rows.map (csvRowChars t.cols))⟩

/-- Parsing a date field of the exported format back to a date. -/
def parseDate (l : List Char) : Option Date :=
  match splitSep '-' l with
  | [ys, ms, ds] =>
    match parseNat ys, parseNat ms, parseNat ds with
    | some y, some m, some d => some ⟨y, m, d⟩
    | _, _, _ => none
  | _ => none

/-- Parsing one CSV data line: the date, and per remaining field
whether it is non-empty, that is, present. -/
def parseCSVRow (line : List Char) : Option (Date × List Bool) :=
  match splitSep ',' line with
  | [] => none
  | dateF :: valueFs =>
    (parseDate dateF).map
      (fun d => (d, valueFs.map (fun f => !f.isEmpty)))

/-- Parsing split CSV lines: the header's column names, and the date
and the present-or-absent pattern of every data line. -/
def parseCSVLines (lines : List (List Char)) :
    Option (List String × List (Date × List Bool)) :=
  match lines with
  | [] => none
  | header :: rowLines =>
    (rowLines.mapM parseCSVRow).map
      (fun rows =>
        ((splitSep ',' header).map (fun cs => (⟨cs⟩ : String)), rows))

/-- Parsing a CSV text. -/
def parseCSV (s : String) :
    Option (List String × List (Date × List Bool)) :=
  parseCSVLines (splitSep '\n' s.data)

theorem dateChars_class (dt : Date) :
    ∀ ch ∈ dateChars dt, ch.isDigit = true ∨ ch = '-' := by
  intro ch hch
  unfold dateChars at hch
  rcases List.mem_append.mp hch with h | h
  · exact Or.inl (padNat_all_digit _ _ ch h)
  · rcases List.mem_cons.mp h with rfl | h
    · exact Or.inr rfl
    · rcases List.mem_append.mp h with h | h
      · exact Or.inl (padNat_all_digit _ _ ch h)
      · rcases List.mem_cons.mp h with rfl | h
        · exact Or.inr rfl
        · exact Or.inl (padNat_all_digit _ _ ch h)

theorem ratChars_ne_nil (q : ℚ) : ratChars q ≠ [] := by
  unfold ratChars
  intro h
  rcases List.append_eq_nil.mp h with ⟨h1, _⟩
  revert h1
  split
  · simp
  · exact natStr_ne_nil _

theorem ratChars_class (q : ℚ) :
    ∀ ch ∈ ratChars q, ch.isDigit = true ∨ ch = '-' ∨ ch = '/' := by
  intro ch hch
  unfold ratChars at hch
  rcases List.mem_append.mp hch with h | h
  · revert h
    split
    · intro h
      rcases List.mem_cons.mp h with rfl | h
      · exact Or.inr (Or.inl rfl)
      · exact Or.inl (natStr_all_digit _ ch h)
    · intro h
      exact Or.inl (natStr_all_digit _ ch h)
  · revert h
    split
    · intro h
      exact absurd h (List.not_mem_nil ch)
    · intro h
      rcases List.mem_cons.mp h with rfl | h
      · exact Or.inr (Or.inr rfl)
      · exact Or.inl (natStr_all_digit _ ch h)

theorem cellChars_class (v : Option ℚ) :
    ∀ ch ∈ cellChars v, ch.isDigit = true ∨ ch = '-' ∨ ch = '/' := by
  cases v with
  | none =>
    intro ch hch
    exact absurd hch (List.not_mem_nil ch)
  | some q => exact ratChars_class q

theorem cellChars_isEmpty (v : Option ℚ) :
    (!(cellChars v).isEmpty) = v.isSome := by
  cases v with
  | none => rfl
  | some q =>
    cases hr : ratChars q with
    | nil => exact absurd hr (ratChars_ne_nil q)
    | cons a l =>
      show (!(ratChars q).isEmpty) = true
      rw [hr]
      rfl

theorem parseDate_dateChars (dt : Date) :
    parseDate (dateChars dt) = some dt := by
  have h4 : '-' ∉ padNat 4 dt.y := fun h =>
    (isDigit_ne (padNat_all_digit _ _ _ h)).2.2.1 rfl
  have h2m : '-' ∉ padNat 2 dt.m := fun h =>
    (isDigit_ne (padNat_all_digit _ _ _ h)).2.2.1 rfl
  have h2d : '-' ∉ padNat 2 dt.d := fun h =>
    (isDigit_ne (padNat_all_digit _ _ _ h)).2.2.1 rfl
  unfold parseDate dateChars
  rw [splitSep_append h4, splitSep_append h2m, splitSep_no_sep h2d]
  show (match parseNat (padNat 4 dt.y), parseNat (padNat 2 dt.m),
      parseNat (padNat 2 dt.d) with
    | some y, some m, some d => some (⟨y, m, d⟩ : Date)
    | _, _, _ => none) = some dt
  rw [parseNat_padNat, parseNat_padNat, parseNat_padNat]

theorem mapM_map_eq {α β γ : Type} (h : α → β) (f : β → Option γ)
    (g : α → γ) : ∀ l : List α, (∀ x ∈ l, f (h x) = some (g x)) →
      (l.map h).mapM f = some (l.map g)
  | [], _ => rfl
  | a :: as, hall => by
    rw [List.map_cons, List.mapM_cons, hall a (List.mem_cons_self a as),
      mapM_map_eq h f g as
        (fun x hx => hall x (List.mem_cons_of_mem a hx))]
    rfl

/-- C9: exporting a flat table to CSV (header row Date then the data
columns, dates in the dashed year-month-day form, absent values as
empty fields) and re-parsing the text reconstructs the header names,
the exact date sequence and the exact present-or-absent pattern of the
original table, provided the column names are free of the comma and
newline separators, as every reshaped name is. -/
theorem csv_round_trip (t : FlatTable)
    (hcols : ∀ c ∈ t.cols, ∀ ch ∈ c.data, ch ≠ ',' ∧ ch ≠ '\n') :
    parseCSV (exportCSV t) =
      some ("Date" :: t.cols,
        t.rows.map (fun r => (r.1, t.cols.map (fun c =>
          ((alookup c r.2).getD none).isSome)))) := by
  have hHdr : '\n' ∉ csvHeaderChars t := by
    intro h
    rcases mem_joinSep h with heq | ⟨f, hf, hmem⟩
    · exact absurd heq (by decide)
    · rcases List.mem_map.mp hf with ⟨cn, hcn, rfl⟩
      rcases List.mem_cons.mp hcn with rfl | hcn
      · exact (by decide : ('\n' : Char) ∉ "Date".data) hmem
      · exact (hcols cn hcn '\n' hmem).2 rfl
  have hRow : ∀ line ∈ t.rows.map (csvRowChars t.cols), '\n' ∉ line := by
    intro line hline hmem
    rcases List.mem_map.mp hline with ⟨r, hr, rfl⟩
    rcases mem_joinSep hmem with heq | ⟨f, hf, hch⟩
    · exact absurd heq (by decide)
    · rcases List.mem_cons.mp hf with rfl | hf
      · rcases dateChars_class r.1 '\n' hch with hd | hd
        · exact (isDigit_ne hd).2.1 rfl
        · exact absurd hd (by decide)
      · rcases List.mem_map.mp hf with ⟨c, hc, rfl⟩
        rcases cellChars_class _ '\n' hch with hd | hd | hd
        · exact (isDigit_ne hd).2.1 rfl
        · exact absurd hd (by decide)
        · exact absurd hd (by decide)
  have hsplit : splitSep '\n' (exportCSV t).data =
      csvHeaderChars t :: t.rows.map (csvRowChars t.cols) := by
    show splitSep '\n'
      (joinSep '\n' (csvHeaderChars t :: t.rows.map (csvRowChars t.cols))) = _
    apply splitSep_joinSep _ (by simp)
    intro f hf
    rcases List.mem_cons.mp hf with rfl | hf
    · exact hHdr
    · exact hRow f hf
  have hhdr2 : splitSep ',' (csvHeaderChars t) =
      (headerNames t).map String.data := by
    unfold csvHeaderChars
    apply splitSep_joinSep _ (by simp [headerNames])
    intro f hf hsep
    rcases List.mem_map.mp hf with ⟨cn, hcn, rfl⟩
    rcases List.mem_cons.mp hcn with rfl | hcn
    · exact (by decide : (',' : Char) ∉ "Date".data) hsep
    · exact (hcols cn hcn ',' hsep).1 rfl
  have hnames : ((headerNames t).map String.data).map
      (fun cs => (⟨cs⟩ : String)) = "Date" :: t.cols := by
    rw [List.map_map]
    have hid : (fun cs => (⟨cs⟩ : String)) ∘ String.data = id :=
      funext fun s => by cases s; rfl
    rw [hid, List.map_id]
    rfl
  have hrowparse : ∀ r ∈ t.rows,
      parseCSVRow (csvRowChars t.cols r) =
        some (r.1, t.cols.map (fun c =>
          ((alookup c r.2).getD none).isSome)) := by
    intro r hr
    have hsplitrow : splitSep ',' (csvRowChars t.cols r) =
        dateChars r.1 ::
          t.cols.map (fun c => cellChars ((alookup c r.2).getD none)) := by
      unfold csvRowChars
      apply splitSep_joinSep _ (by simp)
      intro f hf hsep
      rcases List.mem_cons.mp hf with rfl | hf
      · rcases dateChars_class r.1 ',' hsep with hd | hd
        · exact (isDigit_ne hd).1 rfl
        · exact absurd hd (by decide)
      · rcases List.mem_map.mp hf with ⟨c, hc, rfl⟩
        rcases cellChars_class _ ',' hsep with hd | hd | hd
        · exact (isDigit_ne hd).1 rfl
        · exact absurd hd (by decide)
        · exact absurd hd (by decide)
    unfold parseCSVRow
    rw [hsplitrow]
    show (parseDate (dateChars r.1)).map
        (fun d => (d, (t.cols.map (fun c =>
          cellChars ((alookup c r.2).getD none))).map
            (fun f => !f.isEmpty))) = _
    rw [parseDate_dateChars, List.map_map]
    have hvals : (fun f => !List.isEmpty f) ∘
        (fun c => cellChars ((alookup c r.2).getD none)) =
        fun c => ((alookup c r.2).getD none).isSome :=
      funext fun c => cellChars_isEmpty ((alookup c r.2).getD none)
    rw [Option.map_some', hvals]
  have hmapM : (t.rows.map (csvRowChars t.cols)).mapM parseCSVRow =
      some (t.rows.map (fun r => (r.1, t.cols.map (fun c =>
        ((alookup c r.2).getD none).isSome)))) :=
    mapM_map_eq _ _ _ t.rows hrowparse
  unfold parseCSV
  rw [hsplit]
  show ((t.rows.map (csvRowChars t.cols)).mapM parseCSVRow).map
      (fun rows =>
        ((splitSep ',' (csvHeaderChars t)).map
          (fun cs => (⟨cs⟩ : String)), rows)) = _
  rw [hmapM, Option.map_some', hhdr2, hnames]

/-- Witness for the CSV round-trip theorem at a concrete table. -/
theorem csv_round_trip_witness :
    (∀ c ∈ sampleCloseTable.cols, ∀ ch ∈ c.data,
      ch ≠ ',' ∧ ch ≠ '\n') ∧
    parseCSV (exportCSV sampleCloseTable) =
      some ("Date" :: sampleCloseTable.cols,
        sampleCloseTable.rows.map (fun r =>
          (r.1, sampleCloseTable.cols.map (fun c =>
            ((alookup c r.2).getD none).isSome)))) :=
  ⟨by decide, csv_round_trip sampleCloseTable (by decide)⟩

/-- The script's variable environment: each assignment binds a name to
a table value, later bindings shadowing earlier ones. -/
abbrev Store := List (String × FlatTable)

/-- Assignment of a script variable. -/
def setVar (st : Store) (k : String) (t : FlatTable) : Store :=
  (k, t) :: st

/-- Reading a script variable. -/
def getVar (st : Store) (k : String) : Option FlatTable := alookup k st

/-- The per-symbol Close column name built by the script's string
interpolation. -/
def closeColName (sym : String) : String := "Close_" ++ sym

/-- The two-column selection copied out of the downloaded table at the
head of the moving-average block: the dates with the symbol's Close
column. The copy call makes this frame independent of its source. -/
def selectCloseDf (t : FlatTable) (sym : String) : FlatTable :=
  { cols := [closeColName sym]
    rows := t.rows.map (fun r =>
      (r.1, [(closeColName sym, (alookup (closeColName sym) r.2).getD none)])) }

/-- Column assignment on a frame: the new column name is appended to
the schema and its values to the rows. -/
def setColumn (t : FlatTable) (c : String) (vals : List (Option ℚ)) :
    FlatTable :=
  { cols := t.cols ++ [c]
    rows := t.rows.zipWith (fun r v => (r.1, r.2 ++ [(c, v)])) vals }

/-- The moving-average block of the script for one symbol: copy the
Date and Close columns into a fresh frame, then assign its SMA20 and
SMA50 columns from the rolling means of the Close column. -/
def smaBlockDf (t : FlatTable) (sym : String) : FlatTable :=
  let df := selectCloseDf t sym
  let df1 := setColumn df "SMA20"
    (rollingMean 20 (getColumn df (closeColName sym)))
  let df2 := setColumn df1 "SMA50"
    (rollingMean 50 (getColumn df1 (closeColName sym)))
  df2

/-- One iteration of the moving-average loop as a store transformer:
read the downloaded table, build the per-symbol frame, and bind it to
the df variable. -/
def smaLoopBody (st : Store) (sym : String) : Store :=
  match getVar st "all_data" with
  | none => st
  | some allData => setVar st "df" (smaBlockDf allData sym)

/-- C10: the moving-average computation never modifies the downloaded
table: the SMA columns are assigned on a fresh copy bound to the df
variable, so the table read back afterwards, and with it its CSV export
and every snapshot extracted from it, is identical to the table before
the block ran. -/
theorem sma_block_frames_all_data (st : Store) (sym : String) :
    getVar (smaLoopBody st sym) "all_data" = getVar st "all_data" ∧
    (getVar (smaLoopBody st sym) "all_data").map exportCSV =
      (getVar st "all_data").map exportCSV ∧
    ∀ s2, (getVar (smaLoopBody st sym) "all_data").map
        (fun t => snapshot t s2) =
      (getVar st "all_data").map (fun t => snapshot t s2) := by
  have hmain : getVar (smaLoopBody st sym) "all_data" =
      getVar st "all_data" := by
    unfold smaLoopBody
    cases h : getVar st "all_data" with
    | none => exact h
    | some t =>
      show alookup "all_data" (("df", smaBlockDf t sym) :: st) = some t
      rw [alookup, if_neg (by decide)]
      exact h
  exact ⟨hmain, by rw [hmain], fun s2 => by rw [hmain]⟩

end StockPress
